import Mathlib

/-!
Shallow embedding of the realtime room coordination engine of the
Whiteboard repository (socket server in `src/realtime/socketServer.ts`
together with its event types).  JavaScript `Map`s are modelled as
insertion-ordered association lists (`set` overwrites in place, new keys
are appended, iteration follows insertion order), `Set`s as
insertion-ordered duplicate-free lists, and each socket event handler as
a pure function from the process state, the connection session and the
event payload to the new state, the new session and the ordered list of
emitted events.
-/

namespace Whiteboard

/-- `CursorState` from the shared types: `{x, y, tool?}`. -/
structure CursorState where
  x : Int
  y : Int
  tool : Option String
deriving DecidableEq, Repr

/-- `ParticipantPresence` from the shared types:
`{userId, displayName, email, cursor?}`. -/
structure ParticipantPresence where
  userId : String
  displayName : String
  email : String
  cursor : Option CursorState
deriving DecidableEq, Repr

/-- `ChatMessage` from the shared types:
`{id, roomId, userId, displayName, content, timestamp}`. -/
structure ChatMessage where
  id : String
  roomId : String
  userId : String
  displayName : String
  content : String
  timestamp : String
deriving DecidableEq, Repr

/-- The user record attached to a socket by the auth middleware
(`socket.data.user`): `{id, displayName, email}`. -/
structure SocketUser where
  id : String
  displayName : String
  email : String
deriving DecidableEq, Repr

/-- JavaScript `Map.prototype.get`. -/
def mapGet [DecidableEq α] : List (α × β) → α → Option β
  | [], _ => none
  | (k, v) :: rest, k' => if k = k' then some v else mapGet rest k'

/-- JavaScript `Map.prototype.set`: overwrite in place when the key is
present, append otherwise (insertion order is preserved). -/
def mapSet [DecidableEq α] : List (α × β) → α → β → List (α × β)
  | [], k, v => [(k, v)]
  | (k', v') :: rest, k, v =>
      if k' = k then (k, v) :: rest else (k', v') :: mapSet rest k v

/-- JavaScript `Map.prototype.delete` (ignoring the returned Boolean). -/
def mapDelete [DecidableEq α] : List (α × β) → α → List (α × β)
  | [], _ => []
  | (k', v') :: rest, k =>
      if k' = k then rest else (k', v') :: mapDelete rest k

/-- JavaScript `Map.prototype.has`. -/
def mapHas [DecidableEq α] (m : List (α × β)) (k : α) : Bool :=
  (mapGet m k).isSome

/-- `Array.from(map.values())`: the values in insertion order. -/
def mapValues (m : List (α × β)) : List β :=
  m.map Prod.snd

/-- JavaScript `Set.prototype.add`: append if absent. -/
def setAdd [DecidableEq α] (s : List α) (x : α) : List α :=
  if x ∈ s then s else s ++ [x]

/-- JavaScript `Set.prototype.delete`. -/
def setDelete [DecidableEq α] : List α → α → List α
  | [], _ => []
  | y :: rest, x => if y = x then rest else y :: setDelete rest x

/-- ECMAScript WhiteSpace and LineTerminator code points, the characters
removed by `String.prototype.trim`. -/
def isJsWhitespace (c : Char) : Bool :=
  let n := c.toNat
  n = 9 || n = 10 || n = 11 || n = 12 || n = 13 || n = 32 || n = 160 ||
  n = 0x1680 || (0x2000 ≤ n && n ≤ 0x200A) || n = 0x2028 || n = 0x2029 ||
  n = 0x202F || n = 0x205F || n = 0x3000 || n = 0xFEFF

/-- JavaScript `String.prototype.trim`: strip leading and trailing
whitespace. -/
def jsTrim (s : String) : String :=
  ⟨((s.data.dropWhile isJsWhitespace).reverse.dropWhile
      isJsWhitespace).reverse⟩

/-- The process-wide mutable maps of the socket server:
`roomParticipants : Map<roomId, Map<userId, ParticipantPresence>>` and
`roomChatHistory : Map<roomId, ChatMessage[]>`. -/
structure RoomsState where
  roomParticipants : List (String × List (String × ParticipantPresence))
  roomChatHistory : List (String × List ChatMessage)
deriving DecidableEq, Repr

/-- The state at module load: both maps empty. -/
def emptyRooms : RoomsState :=
  { roomParticipants := [], roomChatHistory := [] }

/-- `const MAX_CHAT_HISTORY = 50`. -/
def MAX_CHAT_HISTORY : Nat := 50

/-- `getParticipants(roomId)`: lazily insert an empty participants map
and return the (possibly fresh) map together with the updated state. -/
def getParticipants (s : RoomsState) (roomId : String) :
    RoomsState × List (String × ParticipantPresence) :=
  match mapGet s.roomParticipants roomId with
  | some m => (s, m)
  | none =>
      ({ s with roomParticipants := mapSet s.roomParticipants roomId [] }, [])

/-- `getChatHistory(roomId)`: lazily insert an empty history and return
the (possibly fresh) history together with the updated state. -/
def getChatHistory (s : RoomsState) (roomId : String) :
    RoomsState × List ChatMessage :=
  match mapGet s.roomChatHistory roomId with
  | some h => (s, h)
  | none =>
      ({ s with roomChatHistory := mapSet s.roomChatHistory roomId [] }, [])

/-- `pushChatMessage(roomId, message)`: append, then `shift()` the
oldest entry when the length exceeds `MAX_CHAT_HISTORY`. -/
def pushChatMessage (s : RoomsState) (roomId : String) (message : ChatMessage) :
    RoomsState :=
  let sh := getChatHistory s roomId
  let history := sh.2 ++ [message]
  let history := if history.length > MAX_CHAT_HISTORY then history.tail else history
  { sh.1 with roomChatHistory := mapSet sh.1.roomChatHistory roomId history }

/-- `removeParticipant(roomId, userId)`: delete the user from the room's
participants map; when the map becomes empty delete both the
participants map and the chat history of the room. -/
def removeParticipant (s : RoomsState) (roomId userId : String) : RoomsState :=
  match mapGet s.roomParticipants roomId with
  | none => s
  | some participants =>
      let participants := mapDelete participants userId
      if participants.length = 0 then
        { roomParticipants := mapDelete s.roomParticipants roomId,
          roomChatHistory := mapDelete s.roomChatHistory roomId }
      else
        { s with roomParticipants := mapSet s.roomParticipants roomId participants }

/-- The per-connection session: the authenticated user
(`socket.data.user`), the joined-room set (`socket.data.rooms`) and the
socket.io delivery-group memberships (`socket.join` / `socket.leave`). -/
structure Session where
  user : SocketUser
  rooms : List String
  channels : List String
deriving DecidableEq, Repr

/-- Delivery target of an emitted event: reply to the sender
(`socket.emit`), room excluding the sender (`socket.to(roomId).emit`),
or room including the sender (`io.to(roomId).emit`). -/
inductive Target where
  | sender : Target
  | roomExceptSender : String → Target
  | roomAll : String → Target
deriving DecidableEq, Repr

/-- The payloads of the server-to-client events actually emitted by the
socket server. -/
inductive EmitPayload where
  | sessionJoined (roomId : String) (participants : List ParticipantPresence)
      (chatHistory : List ChatMessage)
  | participantJoined (roomId : String) (participant : ParticipantPresence)
  | participantLeft (roomId : String) (userId : String)
  | cursorMoved (roomId : String) (userId : String) (cursor : CursorState)
  | chatBroadcast (message : ChatMessage)
  | sessionError (roomId : Option String) (message : String)
deriving DecidableEq, Repr

/-- One emitted event: its delivery target and its payload. -/
structure Emit where
  target : Target
  payload : EmitPayload
deriving DecidableEq, Repr

/-- A value stored in one field of an emitted payload object. -/
inductive FieldVal where
  | str : String → FieldVal
  | optStr : Option String → FieldVal
  | presenceList : List ParticipantPresence → FieldVal
  | presence : ParticipantPresence → FieldVal
  | chatList : List ChatMessage → FieldVal
  | cursorVal : CursorState → FieldVal
deriving DecidableEq, Repr

/-- The field names and values of each emitted payload, transcribed from
the object literals the socket server passes to `emit`. -/
def emitFields : EmitPayload → List (String × FieldVal)
  | .sessionJoined roomId participants chatHistory =>
      [("roomId", .str roomId), ("participants", .presenceList participants),
       ("chatHistory", .chatList chatHistory)]
  | .participantJoined roomId participant =>
      [("roomId", .str roomId), ("participant", .presence participant)]
  | .participantLeft roomId userId =>
      [("roomId", .str roomId), ("userId", .str userId)]
  | .cursorMoved roomId userId cursor =>
      [("roomId", .str roomId), ("userId", .str userId),
       ("cursor", .cursorVal cursor)]
  | .chatBroadcast m =>
      [("id", .str m.id), ("roomId", .str m.roomId), ("userId", .str m.userId),
       ("displayName", .str m.displayName), ("content", .str m.content),
       ("timestamp", .str m.timestamp)]
  | .sessionError roomId message =>
      [("roomId", .optStr roomId), ("message", .str message)]

/-- The `ParticipantPresence` the join handler builds for the caller. -/
def mkPresence (u : SocketUser) : ParticipantPresence :=
  { userId := u.id, displayName := u.displayName, email := u.email,
    cursor := none }

/-- The result of one event handler: new process state, new session,
emitted events in order. -/
def HandlerResult := RoomsState × Session × List Emit

/-- The `session:join` handler.  `roomExists` is the result of the
`prisma.sessionRoom.findUnique` lookup.  When the room is absent:
emit a scoped `session:error` to the requester and change nothing.
Otherwise: `socket.join(roomId)`, add the room to
`socket.data.rooms`, insert/overwrite the caller's presence via
`getParticipants(roomId)` and `participants.set`, reply with the
`session:joined` snapshot (participants values, `getChatHistory(roomId)`)
and broadcast `session:participant:joined` to the rest of the room. -/
def handleJoin (s : RoomsState) (sess : Session) (roomId : String)
    (roomExists : Bool) : HandlerResult :=
  if !roomExists then
    (s, sess, [⟨.sender, .sessionError (some roomId) "Room not found"⟩])
  else
    let sess := { sess with channels := setAdd sess.channels roomId }
    let sess := { sess with rooms := setAdd sess.rooms roomId }
    let sp := getParticipants s roomId
    let presence := mkPresence sess.user
    let participants := mapSet sp.2 sess.user.id presence
    let s := { sp.1 with
      roomParticipants := mapSet sp.1.roomParticipants roomId participants }
    let sh := getChatHistory s roomId
    (sh.1, sess,
      [⟨.sender, .sessionJoined roomId (mapValues participants) sh.2⟩,
       ⟨.roomExceptSender roomId, .participantJoined roomId presence⟩])

/-- The `session:leave` handler: `socket.leave(roomId)`, delete the room
from `socket.data.rooms`, `removeParticipant(roomId, user.id)`, then
unconditionally broadcast `session:participant:left` to the room
excluding the sender. -/
def handleLeave (s : RoomsState) (sess : Session) (roomId : String) :
    HandlerResult :=
  let sess := { sess with channels := setDelete sess.channels roomId }
  let sess := { sess with rooms := setDelete sess.rooms roomId }
  let s := removeParticipant s roomId sess.user.id
  (s, sess, [⟨.roomExceptSender roomId, .participantLeft roomId sess.user.id⟩])

/-- The `session:cursor` handler: drop silently when the room has no
participants map or the caller has no presence entry; otherwise replace
the presence's `cursor` field wholesale and broadcast to the room
excluding the sender. -/
def handleCursor (s : RoomsState) (sess : Session) (roomId : String)
    (cursor : CursorState) : HandlerResult :=
  match mapGet s.roomParticipants roomId with
  | none => (s, sess, [])
  | some participants =>
      match mapGet participants sess.user.id with
      | none => (s, sess, [])
      | some presence =>
          let presence := { presence with cursor := some cursor }
          let participants := mapSet participants sess.user.id presence
          let s := { s with
            roomParticipants := mapSet s.roomParticipants roomId participants }
          (s, sess,
            [⟨.roomExceptSender roomId,
              .cursorMoved roomId sess.user.id cursor⟩])

/-- The `chat:message` handler.  `freshId` stands for
`crypto.randomUUID()` and `now` for `new Date().toISOString()`.  Trim
the content; when empty, return silently; otherwise build the
`ChatMessage`, `pushChatMessage` it and broadcast it to the whole room
including the sender. -/
def handleChat (s : RoomsState) (sess : Session) (roomId content freshId now :
    String) : HandlerResult :=
  let trimmed := jsTrim content
  if trimmed = "" then (s, sess, [])
  else
    let message : ChatMessage :=
      { id := freshId, roomId := roomId, userId := sess.user.id,
        displayName := sess.user.displayName, content := trimmed,
        timestamp := now }
    let s := pushChatMessage s roomId message
    (s, sess, [⟨.roomAll roomId, .chatBroadcast message⟩])

/-- The `disconnect` handler: for each room id in `socket.data.rooms`,
`removeParticipant` and broadcast `session:participant:left`; then clear
the joined set. -/
def handleDisconnect (s : RoomsState) (sess : Session) : HandlerResult :=
  let step := fun (acc : RoomsState × List Emit) (roomId : String) =>
    (removeParticipant acc.1 roomId sess.user.id,
     acc.2 ++ [⟨.roomExceptSender roomId,
                .participantLeft roomId sess.user.id⟩])
  let res := sess.rooms.foldl step (s, [])
  (res.1, { sess with rooms := [] }, res.2)

/-! ### Auth middleware (`io.use`) -/

/-- The credential material of a connection handshake:
`socket.handshake.auth.token` and the `authorization` header. -/
structure HandshakeAuth where
  authToken : Option String
  authorizationHeader : Option String
deriving DecidableEq, Repr

/-- JavaScript `String.prototype.replace` with a string pattern: replace
only the first occurrence. -/
def replaceFirst (s pat : String) : String :=
  match s.splitOn pat with
  | [] => s
  | [x] => x
  | x :: y :: rest => x ++ y ++ String.join (rest.map (fun r => pat ++ r))

/-- The raw token: `auth.token ?? headers.authorization.replace('Bearer ', '')`
(the `??` falls through only when `auth.token` is absent). -/
def extractRawToken (h : HandshakeAuth) : Option String :=
  match h.authToken with
  | some t => some t
  | none => h.authorizationHeader.map (fun a => replaceFirst a "Bearer ")

/-- Outcome of the middleware: `next(err)` or an accepted session. -/
inductive AuthResult where
  | rejected (message : String)
  | accepted (sess : Session)
deriving DecidableEq, Repr

/-- The `io.use` middleware.  `verify` stands for
`jwt.verify(rawToken, config.jwtSecret)` (returning the `sub` claim or
throwing), `findUser` for the `prisma.user.findUnique` lookup.  A missing
or empty raw token (JavaScript `!rawToken`) rejects with
"Authentication required"; a verification failure rejects with the
library's error; an unknown subject rejects with "User not found";
otherwise the session is created with the resolved user, an empty
joined-room set and no delivery-group memberships. -/
def authMiddleware (verify : String → Except String String)
    (findUser : String → Option SocketUser) (h : HandshakeAuth) : AuthResult :=
  match extractRawToken h with
  | none => .rejected "Authentication required"
  | some rawToken =>
      if rawToken = "" then .rejected "Authentication required"
      else
        match verify rawToken with
        | .error e => .rejected e
        | .ok sub =>
            match findUser sub with
            | none => .rejected "User not found"
            | some u => .accepted { user := u, rooms := [], channels := [] }

/-- Connection establishment: the event handlers of `io.on('connection')`
are installed only for a session the middleware accepted, so no room
event handler is reachable on a rejected connection. -/
def connect (verify : String → Except String String)
    (findUser : String → Option SocketUser) (h : HandshakeAuth) :
    Option Session :=
  match authMiddleware verify findUser h with
  | .rejected _ => none
  | .accepted sess => some sess

/-! ### Reachability -/

/-- One incoming event, tagged with the session that receives it.  The
`roomExists` flag of a join is the durable-store lookup result; the
`freshId` and `now` of a chat message stand for the generated id and
timestamp. -/
inductive Event where
  | join (u : SocketUser) (roomId : String) (roomExists : Bool)
  | leave (u : SocketUser) (roomId : String)
  | cursorMove (u : SocketUser) (roomId : String) (c : CursorState)
  | chat (u : SocketUser) (roomId content freshId now : String)
  | disconnect (u : SocketUser) (rooms : List String)
deriving Repr

/-- The effect of one event on the process-wide room state.  The
session's joined set influences the room state only through the
disconnect cleanup, so it is carried on the event itself; every trace of
the running server is a trace of this relation. -/
def applyEvent (s : RoomsState) : Event → RoomsState
  | .join u roomId roomExists =>
      (handleJoin s { user := u, rooms := [], channels := [] } roomId
        roomExists).1
  | .leave u roomId =>
      (handleLeave s { user := u, rooms := [], channels := [] } roomId).1
  | .cursorMove u roomId c =>
      (handleCursor s { user := u, rooms := [], channels := [] } roomId c).1
  | .chat u roomId content freshId now =>
      (handleChat s { user := u, rooms := [], channels := [] } roomId content
        freshId now).1
  | .disconnect u rooms =>
      (handleDisconnect s { user := u, rooms := rooms, channels := [] }).1

/-- The room states reachable from the empty registry by any sequence of
events. -/
inductive Reachable : RoomsState → Prop where
  | init : Reachable emptyRooms
  | step {s : RoomsState} (e : Event) : Reachable s → Reachable (applyEvent s e)

/-- Every room id with tracked participants has at least one participant. -/
def participantsNonempty (s : RoomsState) : Prop :=
  ∀ p ∈ s.roomParticipants, p.2 ≠ []

/-- Every tracked chat history holds at most `MAX_CHAT_HISTORY` messages. -/
def chatBounded (s : RoomsState) : Prop :=
  ∀ p ∈ s.roomChatHistory, p.2.length ≤ MAX_CHAT_HISTORY

/-- Both process-wide maps have duplicate-free key lists (the embedding
counterpart of them being JavaScript `Map`s). -/
def stateNodup (s : RoomsState) : Prop :=
  (s.roomParticipants.map Prod.fst).Nodup ∧
  (s.roomChatHistory.map Prod.fst).Nodup

/-- The participants array of the `session:joined` snapshot: the values,
in insertion order, of the room's participants map right after the
caller's presence has been inserted. -/
def joinSnapshotParticipants (s : RoomsState) (sess : Session)
    (roomId : String) : List ParticipantPresence :=
  mapValues
    (mapSet (getParticipants s roomId).2 sess.user.id (mkPresence sess.user))

/-- The chat history of the `session:joined` snapshot: the room's
current history, empty when the room has none. -/
def chatHistoryOf (s : RoomsState) (roomId : String) : List ChatMessage :=
  (mapGet s.roomChatHistory roomId).getD []

/-- The `ChatMessage` the chat handler constructs for a non-empty
trimmed content. -/
def chatMessageOf (sess : Session) (roomId content freshId now : String) :
    ChatMessage :=
  { id := freshId, roomId := roomId, userId := sess.user.id,
    displayName := sess.user.displayName, content := jsTrim content,
    timestamp := now }

/-! ### Concrete data for witnesses and counterexamples -/

def demoUser : SocketUser :=
  { id := "u1", displayName := "User One", email := "u1@example.com" }

def demoUser2 : SocketUser :=
  { id := "u2", displayName := "User Two", email := "u2@example.com" }

def demoSession : Session := { user := demoUser, rooms := [], channels := [] }

/-- The state in which `demoUser` alone has joined room `"r"`. -/
def oneUserState : RoomsState := applyEvent emptyRooms (.join demoUser "r" true)

/-- The state after an authenticated connection sends one chat message
into room `"r"` without ever joining it. -/
def chatLeakState : RoomsState :=
  applyEvent emptyRooms (.chat demoUser "r" "hi" "id0" "t0")

def c2Content (i : Nat) : String := "m" ++ toString i

/-- The message the chat handler produces for the `i`-th send below. -/
def c2Message (i : Nat) : ChatMessage :=
  { id := toString i, roomId := "r", userId := demoUser.id,
    displayName := demoUser.displayName, content := c2Content i,
    timestamp := "t" ++ toString i }

/-- 51 sequential chat sends into room `"r"`. -/
def c2Events : List Event :=
  (List.range 51).map
    (fun i => Event.chat demoUser "r" (c2Content i) (toString i)
      ("t" ++ toString i))

def c2FinalState : RoomsState := c2Events.foldl applyEvent emptyRooms

/-- The events the server emits for a successful join of `"roomA"` from
the empty registry. -/
def joinEmitsDemo : List Emit :=
  (handleJoin emptyRooms demoSession "roomA" true).2.2

/-- A demo verifier accepting exactly the token `"tok"` with subject
`"sub1"`. -/
def demoVerify : String → Except String String :=
  fun t => if t = "tok" then .ok "sub1" else .error "jwt malformed"

/-- A demo verifier accepting every token with an unknown subject. -/
def demoVerifyGhost : String → Except String String := fun _ => .ok "ghost"

/-- A demo account store resolving exactly the subject `"sub1"`. -/
def demoFindUser : String → Option SocketUser :=
  fun s => if s = "sub1" then some demoUser else none

/-! ### Association-list lemmas -/

theorem mapGet_mem [DecidableEq α] {m : List (α × β)} {k : α} {v : β}
    (h : mapGet m k = some v) : (k, v) ∈ m := by
  induction m with
  | nil => simp [mapGet] at h
  | cons p rest ih =>
      obtain ⟨k', v'⟩ := p
      by_cases hk : k' = k
      · subst hk
        simp [mapGet] at h
        simp [h]
      · simp [mapGet, hk] at h
        exact List.mem_cons_of_mem _ (ih h)

theorem mem_mapSet [DecidableEq α] {m : List (α × β)} {k : α} {v : β}
    {p : α × β} (h : p ∈ mapSet m k v) : p = (k, v) ∨ p ∈ m := by
  induction m with
  | nil => simp [mapSet] at h; simp [h]
  | cons q rest ih =>
      obtain ⟨k', v'⟩ := q
      by_cases hk : k' = k
      · subst hk
        simp [mapSet] at h
        rcases h with h | h
        · exact Or.inl h
        · exact Or.inr (List.mem_cons_of_mem _ h)
      · simp [mapSet, hk] at h
        rcases h with h | h
        · exact Or.inr (by simp [h])
        · rcases ih h with h' | h'
          · exact Or.inl h'
          · exact Or.inr (List.mem_cons_of_mem _ h')

theorem mem_mapDelete [DecidableEq α] {m : List (α × β)} {k : α}
    {p : α × β} (h : p ∈ mapDelete m k) : p ∈ m := by
  induction m with
  | nil => simp [mapDelete] at h
  | cons q rest ih =>
      obtain ⟨k', v'⟩ := q
      by_cases hk : k' = k
      · subst hk
        simp [mapDelete] at h
        exact List.mem_cons_of_mem _ h
      · simp [mapDelete, hk] at h
        rcases h with h | h
        · simp [h]
        · exact List.mem_cons_of_mem _ (ih h)

theorem mapSet_ne_nil [DecidableEq α] (m : List (α × β)) (k : α) (v : β) :
    mapSet m k v ≠ [] := by
  cases m with
  | nil => simp [mapSet]
  | cons q rest =>
      obtain ⟨k', v'⟩ := q
      by_cases hk : k' = k <;> simp [mapSet, hk]

theorem mapSet_mapSet [DecidableEq α] (m : List (α × β)) (k : α) (v w : β) :
    mapSet (mapSet m k v) k w = mapSet m k w := by
  induction m with
  | nil => simp [mapSet]
  | cons q rest ih =>
      obtain ⟨k', v'⟩ := q
      by_cases hk : k' = k
      · subst hk; simp [mapSet]
      · simp [mapSet, hk, ih]

theorem mapGet_mapSet [DecidableEq α] (m : List (α × β)) (k k' : α) (v : β) :
    mapGet (mapSet m k v) k' = if k = k' then some v else mapGet m k' := by
  induction m with
  | nil => simp [mapSet, mapGet]
  | cons q rest ih =>
      obtain ⟨k₀, v₀⟩ := q
      by_cases hk : k₀ = k
      · subst hk
        by_cases hk' : k₀ = k'
        · subst hk'; simp [mapSet, mapGet]
        · simp [mapSet, mapGet, hk']
      · by_cases hk' : k₀ = k'
        · subst hk'
          have : ¬ k = k₀ := fun h => hk h.symm
          simp [mapSet, hk, mapGet, this]
        · simp [mapSet, hk, mapGet, hk', ih]

theorem mapGet_mapDelete_ne [DecidableEq α] (m : List (α × β)) {k k' : α}
    (h : k ≠ k') : mapGet (mapDelete m k) k' = mapGet m k' := by
  induction m with
  | nil => simp [mapDelete]
  | cons q rest ih =>
      obtain ⟨k₀, v₀⟩ := q
      by_cases hk : k₀ = k
      · have hne : ¬ k₀ = k' := by rw [hk]; exact h
        simp [mapDelete, hk, mapGet, hne, h]
      · by_cases hk' : k₀ = k'
        · simp [mapDelete, hk, mapGet, hk', Ne.symm h]
        · simp [mapDelete, hk, mapGet, hk', ih]

/-! ### Shape lemmas for the handlers -/

/-- On a successful join the participants registry is updated at exactly
the joined room: the lazy creation in `getParticipants` followed by the
overwrite at the same key collapses to a single overwrite. -/
theorem handleJoin_roomParticipants (s : RoomsState) (sess : Session)
    (roomId : String) :
    ((handleJoin s sess roomId true).1).roomParticipants =
      mapSet s.roomParticipants roomId
        (mapSet (getParticipants s roomId).2 sess.user.id
          (mkPresence sess.user)) := by
  simp only [handleJoin, getParticipants, getChatHistory]
  cases hp : mapGet s.roomParticipants roomId with
  | none =>
      simp only [hp]
      cases hc : mapGet (mapSet s.roomParticipants roomId []) roomId <;>
        cases hh : mapGet s.roomChatHistory roomId <;>
          simp [hp, hc, hh, mapSet_mapSet]
  | some participants =>
      simp only [hp]
      cases hh : mapGet s.roomChatHistory roomId <;> simp [hp, hh]

theorem pushChatMessage_roomParticipants (s : RoomsState) (roomId : String)
    (m : ChatMessage) :
    (pushChatMessage s roomId m).roomParticipants = s.roomParticipants := by
  simp only [pushChatMessage, getChatHistory]
  cases hh : mapGet s.roomChatHistory roomId <;> simp [hh]

theorem handleChat_roomParticipants (s : RoomsState) (sess : Session)
    (roomId content freshId now : String) :
    ((handleChat s sess roomId content freshId now).1).roomParticipants =
      s.roomParticipants := by
  simp only [handleChat]
  by_cases ht : jsTrim content = ""
  · simp [ht]
  · simp [ht, pushChatMessage_roomParticipants]

/-! ### Preservation of the participants invariant -/

theorem removeParticipant_nonempty {s : RoomsState} (roomId userId : String)
    (hs : participantsNonempty s) :
    participantsNonempty (removeParticipant s roomId userId) := by
  unfold removeParticipant
  cases hp : mapGet s.roomParticipants roomId with
  | none => exact hs
  | some participants =>
      by_cases hz : (mapDelete participants userId).length = 0
      · simp only [hz, if_pos rfl]
        intro p hmem
        exact hs p (mem_mapDelete hmem)
      · simp only [hz, if_neg hz]
        intro p hmem
        rcases mem_mapSet hmem with h | h
        · subst h
          simpa using List.length_eq_zero.not.mp hz
        · exact hs p h

theorem handleJoin_nonempty {s : RoomsState} (sess : Session)
    (roomId : String) (roomExists : Bool) (hs : participantsNonempty s) :
    participantsNonempty (handleJoin s sess roomId roomExists).1 := by
  cases roomExists with
  | false =>
      simpa [handleJoin] using hs
  | true =>
      intro p hmem
      rw [handleJoin_roomParticipants] at hmem
      rcases mem_mapSet hmem with h | h
      · subst h
        simpa using mapSet_ne_nil _ sess.user.id (mkPresence sess.user)
      · exact hs p h

theorem handleLeave_nonempty {s : RoomsState} (sess : Session)
    (roomId : String) (hs : participantsNonempty s) :
    participantsNonempty (handleLeave s sess roomId).1 :=
  removeParticipant_nonempty roomId sess.user.id hs

theorem handleCursor_nonempty {s : RoomsState} (sess : Session)
    (roomId : String) (c : CursorState) (hs : participantsNonempty s) :
    participantsNonempty (handleCursor s sess roomId c).1 := by
  unfold handleCursor
  split
  · exact hs
  · split
    · exact hs
    · intro p hmem
      simp only at hmem
      rcases mem_mapSet hmem with h | h
      · subst h
        simpa using mapSet_ne_nil _ sess.user.id _
      · exact hs p h

theorem handleChat_nonempty {s : RoomsState} (sess : Session)
    (roomId content freshId now : String) (hs : participantsNonempty s) :
    participantsNonempty (handleChat s sess roomId content freshId now).1 := by
  intro p hmem
  rw [handleChat_roomParticipants] at hmem
  exact hs p hmem

theorem handleDisconnect_fold (sess : Session) :
    ∀ (rooms : List String) (s : RoomsState) (acc : List Emit),
      (rooms.foldl
        (fun (a : RoomsState × List Emit) (roomId : String) =>
          (removeParticipant a.1 roomId sess.user.id,
           a.2 ++ [⟨.roomExceptSender roomId,
                    .participantLeft roomId sess.user.id⟩])) (s, acc)).1 =
      rooms.foldl (fun a roomId => removeParticipant a roomId sess.user.id)
        s := by
  intro rooms
  induction rooms with
  | nil => intro s acc; rfl
  | cons r rest ih => intro s acc; simp only [List.foldl_cons]; exact ih _ _

theorem handleDisconnect_nonempty {s : RoomsState} (sess : Session)
    (hs : participantsNonempty s) :
    participantsNonempty (handleDisconnect s sess).1 := by
  unfold handleDisconnect
  simp only [handleDisconnect_fold]
  induction sess.rooms generalizing s with
  | nil => exact hs
  | cons r rest ih =>
      simp only [List.foldl_cons]
      exact ih (removeParticipant_nonempty r sess.user.id hs)

theorem applyEvent_nonempty {s : RoomsState} (e : Event)
    (hs : participantsNonempty s) : participantsNonempty (applyEvent s e) := by
  cases e with
  | join u roomId roomExists => exact handleJoin_nonempty _ _ _ hs
  | leave u roomId => exact handleLeave_nonempty _ _ hs
  | cursorMove u roomId c => exact handleCursor_nonempty _ _ _ hs
  | chat u roomId content freshId now => exact handleChat_nonempty _ _ _ _ _ hs
  | disconnect u rooms => exact handleDisconnect_nonempty _ hs

theorem reachable_nonempty {s : RoomsState} (hs : Reachable s) :
    participantsNonempty s := by
  induction hs with
  | init => intro p hp; simp [emptyRooms] at hp
  | step e _ ih => exact applyEvent_nonempty e ih

/-! ### Preservation of the chat-history bound -/

theorem chatBounded_of_eq {s s' : RoomsState}
    (h : s'.roomChatHistory = s.roomChatHistory) (hs : chatBounded s) :
    chatBounded s' := by
  intro p hp
  rw [h] at hp
  exact hs p hp

theorem getChatHistory_roomParticipants (s : RoomsState) (roomId : String) :
    ((getChatHistory s roomId).1).roomParticipants = s.roomParticipants := by
  unfold getChatHistory
  cases h : mapGet s.roomChatHistory roomId <;> simp

theorem getChatHistory_len {s : RoomsState} (roomId : String)
    (hs : chatBounded s) :
    (getChatHistory s roomId).2.length ≤ MAX_CHAT_HISTORY := by
  unfold getChatHistory
  cases h : mapGet s.roomChatHistory roomId with
  | none => simp
  | some hist => simpa using hs (roomId, hist) (mapGet_mem h)

theorem getChatHistory_bounded {s : RoomsState} (roomId : String)
    (hs : chatBounded s) : chatBounded (getChatHistory s roomId).1 := by
  unfold getChatHistory
  cases h : mapGet s.roomChatHistory roomId with
  | none =>
      intro p hp
      simp only at hp
      rcases mem_mapSet hp with h' | h'
      · subst h'; simp
      · exact hs p h'
  | some hist => exact hs

theorem pushChatMessage_bounded {s : RoomsState} (roomId : String)
    (m : ChatMessage) (hs : chatBounded s) :
    chatBounded (pushChatMessage s roomId m) := by
  unfold pushChatMessage
  intro p hp
  simp only at hp
  rcases mem_mapSet hp with h' | h'
  · have hlen := getChatHistory_len roomId hs
    subst h'
    by_cases hgt :
        ((getChatHistory s roomId).2 ++ [m]).length > MAX_CHAT_HISTORY
    · simp only [if_pos hgt]
      simp only [List.length_tail, List.length_append, List.length_cons,
        List.length_nil]
      omega
    · simp only [if_neg hgt]
      omega
  · exact getChatHistory_bounded roomId hs p h'

theorem removeParticipant_bounded {s : RoomsState} (roomId userId : String)
    (hs : chatBounded s) :
    chatBounded (removeParticipant s roomId userId) := by
  unfold removeParticipant
  cases hp : mapGet s.roomParticipants roomId with
  | none => exact hs
  | some participants =>
      by_cases hz : (mapDelete participants userId).length = 0
      · simp only [hz, if_pos rfl]
        intro p hp
        exact hs p (mem_mapDelete hp)
      · simp only [hz, if_neg hz]
        exact hs

theorem handleJoin_bounded {s : RoomsState} (sess : Session)
    (roomId : String) (roomExists : Bool) (hs : chatBounded s) :
    chatBounded (handleJoin s sess roomId roomExists).1 := by
  cases roomExists with
  | false => simpa [handleJoin] using hs
  | true =>
      unfold handleJoin
      simp only [Bool.not_true, Bool.false_eq_true, if_false]
      apply getChatHistory_bounded
      apply chatBounded_of_eq (s := (getParticipants s roomId).1)
      · rfl
      · unfold getParticipants
        cases h : mapGet s.roomParticipants roomId with
        | none => exact chatBounded_of_eq (by simp) hs
        | some participants => exact hs

theorem handleLeave_bounded {s : RoomsState} (sess : Session)
    (roomId : String) (hs : chatBounded s) :
    chatBounded (handleLeave s sess roomId).1 :=
  removeParticipant_bounded roomId sess.user.id hs

theorem handleCursor_bounded {s : RoomsState} (sess : Session)
    (roomId : String) (c : CursorState) (hs : chatBounded s) :
    chatBounded (handleCursor s sess roomId c).1 := by
  unfold handleCursor
  split
  · exact hs
  · split
    · exact hs
    · exact chatBounded_of_eq rfl hs

theorem handleChat_bounded {s : RoomsState} (sess : Session)
    (roomId content freshId now : String) (hs : chatBounded s) :
    chatBounded (handleChat s sess roomId content freshId now).1 := by
  unfold handleChat
  by_cases ht : jsTrim content = ""
  · simpa [ht] using hs
  · simpa [ht] using pushChatMessage_bounded roomId _ hs

theorem handleDisconnect_bounded {s : RoomsState} (sess : Session)
    (hs : chatBounded s) : chatBounded (handleDisconnect s sess).1 := by
  unfold handleDisconnect
  simp only [handleDisconnect_fold]
  induction sess.rooms generalizing s with
  | nil => exact hs
  | cons r rest ih =>
      simp only [List.foldl_cons]
      exact ih (removeParticipant_bounded r sess.user.id hs)

theorem applyEvent_bounded {s : RoomsState} (e : Event)
    (hs : chatBounded s) : chatBounded (applyEvent s e) := by
  cases e with
  | join u roomId roomExists => exact handleJoin_bounded _ _ _ hs
  | leave u roomId => exact handleLeave_bounded _ _ hs
  | cursorMove u roomId c => exact handleCursor_bounded _ _ _ hs
  | chat u roomId content freshId now => exact handleChat_bounded _ _ _ _ _ hs
  | disconnect u rooms => exact handleDisconnect_bounded _ hs

theorem reachable_bounded {s : RoomsState} (hs : Reachable s) :
    chatBounded s := by
  induction hs with
  | init => intro p hp; simp [emptyRooms] at hp
  | step e _ ih => exact applyEvent_bounded e ih

/-! ### Key-uniqueness machinery -/

theorem mapDelete_sublist [DecidableEq α] (m : List (α × β)) (k : α) :
    (mapDelete m k).Sublist m := by
  induction m with
  | nil => simp [mapDelete]
  | cons q rest ih =>
      obtain ⟨k', v'⟩ := q
      by_cases hk : k' = k
      · simp only [mapDelete, if_pos hk]
        exact List.Sublist.cons _ (List.Sublist.refl _)
      · simp only [mapDelete, if_neg hk]
        exact List.Sublist.cons₂ _ ih

theorem mem_keys_mapSet [DecidableEq α] {m : List (α × β)} {k a : α} {v : β}
    (h : a ∈ (mapSet m k v).map Prod.fst) :
    a = k ∨ a ∈ m.map Prod.fst := by
  rcases List.mem_map.mp h with ⟨p, hp, hpa⟩
  rcases mem_mapSet hp with h' | h'
  · subst h'; exact Or.inl hpa.symm
  · exact Or.inr (List.mem_map.mpr ⟨p, h', hpa⟩)

theorem mapSet_nodupKeys [DecidableEq α] {m : List (α × β)} (k : α) (v : β)
    (h : (m.map Prod.fst).Nodup) : ((mapSet m k v).map Prod.fst).Nodup := by
  induction m with
  | nil => simp [mapSet]
  | cons q rest ih =>
      obtain ⟨k', v'⟩ := q
      simp only [List.map_cons, List.nodup_cons] at h
      by_cases hk : k' = k
      · subst hk
        simpa [mapSet, List.nodup_cons] using h
      · simp only [mapSet, if_neg hk, List.map_cons, List.nodup_cons]
        refine ⟨?_, ih h.2⟩
        intro hmem
        rcases mem_keys_mapSet hmem with h' | h'
        · exact hk h'
        · exact h.1 h'

theorem mapDelete_nodupKeys [DecidableEq α] {m : List (α × β)} (k : α)
    (h : (m.map Prod.fst).Nodup) : ((mapDelete m k).map Prod.fst).Nodup :=
  ((mapDelete_sublist m k).map Prod.fst).nodup h

theorem mapGet_none_of_not_mem_keys [DecidableEq α] {m : List (α × β)}
    {k : α} (h : k ∉ m.map Prod.fst) : mapGet m k = none := by
  induction m with
  | nil => rfl
  | cons q rest ih =>
      obtain ⟨k', v'⟩ := q
      simp only [List.map_cons, List.mem_cons] at h
      push_neg at h
      have hk : ¬ k' = k := fun hh => h.1 hh.symm
      simp [mapGet, hk, ih h.2]

theorem mapGet_mapDelete_self [DecidableEq α] {m : List (α × β)} (k : α)
    (h : (m.map Prod.fst).Nodup) : mapGet (mapDelete m k) k = none := by
  induction m with
  | nil => rfl
  | cons q rest ih =>
      obtain ⟨k', v'⟩ := q
      simp only [List.map_cons, List.nodup_cons] at h
      by_cases hk : k' = k
      · subst hk
        simp only [mapDelete, if_pos rfl]
        exact mapGet_none_of_not_mem_keys h.1
      · simp [mapDelete, hk, mapGet, ih h.2]

theorem mapDelete_of_get_none [DecidableEq α] {m : List (α × β)} {k : α}
    (h : mapGet m k = none) : mapDelete m k = m := by
  induction m with
  | nil => rfl
  | cons q rest ih =>
      obtain ⟨k', v'⟩ := q
      by_cases hk : k' = k
      · subst hk; simp [mapGet] at h
      · simp only [mapGet, if_neg hk] at h
        simp [mapDelete, hk, ih h]

theorem mapSet_of_get_eq [DecidableEq α] {m : List (α × β)} {k : α} {v : β}
    (h : mapGet m k = some v) : mapSet m k v = m := by
  induction m with
  | nil => simp [mapGet] at h
  | cons q rest ih =>
      obtain ⟨k', v'⟩ := q
      by_cases hk : k' = k
      · subst hk
        have h' : v' = v := by simpa [mapGet] using h
        simp [mapSet, h']
      · simp only [mapGet, if_neg hk] at h
        simp [mapSet, hk, ih h]

theorem setDelete_of_not_mem [DecidableEq α] {l : List α} {x : α}
    (h : x ∉ l) : setDelete l x = l := by
  induction l with
  | nil => rfl
  | cons y rest ih =>
      simp only [List.mem_cons] at h
      push_neg at h
      have hy : ¬ y = x := fun hh => h.1 hh.symm
      simp [setDelete, hy, ih h.2]

theorem mapSet_length [DecidableEq α] {m : List (α × β)} {k : α} {v : β}
    (w : β) (h : mapGet m k = some v) :
    (mapSet m k w).length = m.length := by
  induction m with
  | nil => simp [mapGet] at h
  | cons q rest ih =>
      obtain ⟨k', v'⟩ := q
      by_cases hk : k' = k
      · simp [mapSet, hk]
      · simp only [mapGet, if_neg hk] at h
        simp [mapSet, hk, ih h]

theorem getParticipants_of_get_some {s : RoomsState} {roomId : String}
    {ps : List (String × ParticipantPresence)}
    (h : mapGet s.roomParticipants roomId = some ps) :
    getParticipants s roomId = (s, ps) := by
  simp [getParticipants, h]

/-! ### Key-uniqueness is a reachable invariant -/

theorem getChatHistory_chatMap (s : RoomsState) (roomId : String) :
    ((getChatHistory s roomId).1).roomChatHistory = s.roomChatHistory ∨
    ((getChatHistory s roomId).1).roomChatHistory =
      mapSet s.roomChatHistory roomId [] := by
  unfold getChatHistory
  cases h : mapGet s.roomChatHistory roomId with
  | none => right; rfl
  | some hist => left; rfl

theorem pushChatMessage_nodup {s : RoomsState} (roomId : String)
    (m : ChatMessage) (hs : stateNodup s) :
    stateNodup (pushChatMessage s roomId m) := by
  unfold pushChatMessage getChatHistory
  cases h : mapGet s.roomChatHistory roomId with
  | none =>
      refine ⟨hs.1, ?_⟩
      exact mapSet_nodupKeys roomId _ (mapSet_nodupKeys roomId _ hs.2)
  | some hist =>
      refine ⟨hs.1, ?_⟩
      exact mapSet_nodupKeys roomId _ hs.2

theorem removeParticipant_nodup {s : RoomsState} (roomId userId : String)
    (hs : stateNodup s) : stateNodup (removeParticipant s roomId userId) := by
  unfold removeParticipant
  cases hp : mapGet s.roomParticipants roomId with
  | none => exact hs
  | some participants =>
      by_cases hz : (mapDelete participants userId).length = 0
      · simp only [hz, if_pos rfl]
        exact ⟨mapDelete_nodupKeys roomId hs.1, mapDelete_nodupKeys roomId hs.2⟩
      · simp only [hz, if_neg hz]
        exact ⟨mapSet_nodupKeys roomId _ hs.1, hs.2⟩

theorem handleJoin_nodup {s : RoomsState} (sess : Session)
    (roomId : String) (roomExists : Bool) (hs : stateNodup s) :
    stateNodup (handleJoin s sess roomId roomExists).1 := by
  cases roomExists with
  | false => simpa [handleJoin] using hs
  | true =>
      constructor
      · rw [handleJoin_roomParticipants]
        exact mapSet_nodupKeys roomId _ hs.1
      · unfold handleJoin
        simp only [Bool.not_true, Bool.false_eq_true, if_false]
        have hparts : ∀ s' : RoomsState, s'.roomChatHistory = s.roomChatHistory →
            (((getChatHistory s' roomId).1).roomChatHistory.map Prod.fst).Nodup := by
          intro s' heq
          rcases getChatHistory_chatMap s' roomId with h | h
          · rw [h, heq]; exact hs.2
          · rw [h, heq]; exact mapSet_nodupKeys roomId _ hs.2
        unfold getParticipants
        cases h : mapGet s.roomParticipants roomId with
        | none => exact hparts _ rfl
        | some participants => exact hparts _ rfl

theorem handleLeave_nodup {s : RoomsState} (sess : Session)
    (roomId : String) (hs : stateNodup s) :
    stateNodup (handleLeave s sess roomId).1 :=
  removeParticipant_nodup roomId sess.user.id hs

theorem handleCursor_nodup {s : RoomsState} (sess : Session)
    (roomId : String) (c : CursorState) (hs : stateNodup s) :
    stateNodup (handleCursor s sess roomId c).1 := by
  unfold handleCursor
  split
  · exact hs
  · split
    · exact hs
    · exact ⟨mapSet_nodupKeys roomId _ hs.1, hs.2⟩

theorem handleChat_nodup {s : RoomsState} (sess : Session)
    (roomId content freshId now : String) (hs : stateNodup s) :
    stateNodup (handleChat s sess roomId content freshId now).1 := by
  unfold handleChat
  by_cases ht : jsTrim content = ""
  · simpa [ht] using hs
  · simpa [ht] using pushChatMessage_nodup roomId _ hs

theorem handleDisconnect_nodup {s : RoomsState} (sess : Session)
    (hs : stateNodup s) : stateNodup (handleDisconnect s sess).1 := by
  unfold handleDisconnect
  simp only [handleDisconnect_fold]
  induction sess.rooms generalizing s with
  | nil => exact hs
  | cons r rest ih =>
      simp only [List.foldl_cons]
      exact ih (removeParticipant_nodup r sess.user.id hs)

theorem applyEvent_nodup {s : RoomsState} (e : Event)
    (hs : stateNodup s) : stateNodup (applyEvent s e) := by
  cases e with
  | join u roomId roomExists => exact handleJoin_nodup _ _ _ hs
  | leave u roomId => exact handleLeave_nodup _ _ hs
  | cursorMove u roomId c => exact handleCursor_nodup _ _ _ hs
  | chat u roomId content freshId now => exact handleChat_nodup _ _ _ _ _ hs
  | disconnect u rooms => exact handleDisconnect_nodup _ hs

theorem reachable_nodup {s : RoomsState} (hs : Reachable s) : stateNodup s := by
  induction hs with
  | init => exact ⟨by simp [emptyRooms], by simp [emptyRooms]⟩
  | step e _ ih => exact applyEvent_nodup e ih

theorem reachable_foldl (evs : List Event) {s : RoomsState}
    (hs : Reachable s) : Reachable (evs.foldl applyEvent s) := by
  induction evs generalizing s with
  | nil => exact hs
  | cons e rest ih =>
      simp only [List.foldl_cons]
      exact ih (Reachable.step e hs)

/-! ### The events of a successful join -/

theorem handleJoin_emits (s : RoomsState) (sess : Session) (roomId : String) :
    (handleJoin s sess roomId true).2.2 =
      [⟨.sender, .sessionJoined roomId (joinSnapshotParticipants s sess roomId)
          (chatHistoryOf s roomId)⟩,
       ⟨.roomExceptSender roomId,
          .participantJoined roomId (mkPresence sess.user)⟩] := by
  unfold handleJoin joinSnapshotParticipants chatHistoryOf getParticipants
    getChatHistory
  cases hp : mapGet s.roomParticipants roomId <;>
    cases hh : mapGet s.roomChatHistory roomId <;>
      simp [hp, hh]

/-! ### Counting the joiner in the snapshot -/

theorem countP_values_zero (uid : String)
    (ps : List (String × ParticipantPresence))
    (hid : ∀ p ∈ ps, p.2.userId = p.1) (hmem : uid ∉ ps.map Prod.fst) :
    (mapValues ps).countP (fun q => q.userId == uid) = 0 := by
  induction ps with
  | nil => rfl
  | cons p rest ih =>
      obtain ⟨k, v⟩ := p
      simp only [List.map_cons, List.mem_cons] at hmem
      push_neg at hmem
      have hv : v.userId = k := hid (k, v) (by simp)
      have hne : (v.userId == uid) = false := by
        rw [hv]
        exact beq_false_of_ne (fun hh => hmem.1 hh.symm)
      simp only [mapValues, List.map_cons, List.countP_cons, hne,
        if_false]
      have := ih (fun p hp => hid p (List.mem_cons_of_mem _ hp)) hmem.2
      simpa [mapValues] using this

theorem countP_values_mapSet (uid : String) (pres : ParticipantPresence)
    (hpres : pres.userId = uid) (ps : List (String × ParticipantPresence))
    (hnd : (ps.map Prod.fst).Nodup) (hid : ∀ p ∈ ps, p.2.userId = p.1)
    (hhas : mapHas ps uid = true) :
    (mapValues (mapSet ps uid pres)).countP (fun q => q.userId == uid) = 1 := by
  induction ps with
  | nil => simp [mapHas, mapGet] at hhas
  | cons p rest ih =>
      obtain ⟨k, v⟩ := p
      simp only [List.map_cons, List.nodup_cons] at hnd
      by_cases hk : k = uid
      · subst hk
        have hz := countP_values_zero k rest
          (fun p hp => hid p (List.mem_cons_of_mem _ hp)) hnd.1
        have hz' : List.countP (fun q => q.userId == k)
            (List.map Prod.snd rest) = 0 := by simpa [mapValues] using hz
        simp [mapSet, mapValues, List.countP_cons, hpres, hz']
      · have hv : v.userId = k := hid (k, v) (by simp)
        have hne : (v.userId == uid) = false := by
          rw [hv]; exact beq_false_of_ne hk
        have hhas' : mapHas rest uid = true := by
          simpa [mapHas, mapGet, hk] using hhas
        have := ih hnd.2 (fun p hp => hid p (List.mem_cons_of_mem _ hp)) hhas'
        simp only [mapSet, if_neg hk, mapValues, List.map_cons,
          List.countP_cons, hne, if_false]
        simpa [mapValues] using this

theorem mapValues_length (m : List (α × β)) :
    (mapValues m).length = m.length := by
  simp [mapValues]

/-! ### Claims -/

/-- C1 counterexample: from the empty registry, a single `chat:message`
event for room `"r"` sent by an authenticated connection that never
joined the room is a reachable step, and it leaves the registry with a
tracked chat history for `"r"` while `"r"` has no participants map at
all — so a room id with tracked per-room state (its chat history) and
zero participants does exist, contradicting the claim. -/
theorem chat_creates_history_without_participants :
    Reachable chatLeakState ∧
    mapGet chatLeakState.roomChatHistory "r" =
      some [{ id := "id0", roomId := "r", userId := "u1",
              displayName := "User One", content := "hi",
              timestamp := "t0" }] ∧
    mapGet chatLeakState.roomParticipants "r" = none :=
  ⟨Reachable.step _ Reachable.init, by decide, by decide⟩

/-- C1 (amended): in every reachable state, every room id with a tracked
participants map has at least one participant, and removing the last
participant of a room deletes both the participants map and the chat
history of that room; however a chat history (though never a
participants map) can exist for a room with zero participants, because a
chat message sent into a never-joined room creates its history entry. -/
theorem registry_empty_room_invariant_amended :
    (∀ s : RoomsState, Reachable s → participantsNonempty s) ∧
    (∀ (s : RoomsState) (roomId userId : String)
        (ps : List (String × ParticipantPresence)), Reachable s →
      mapGet s.roomParticipants roomId = some ps →
      mapDelete ps userId = [] →
      mapGet (removeParticipant s roomId userId).roomParticipants roomId =
          none ∧
      mapGet (removeParticipant s roomId userId).roomChatHistory roomId =
          none) := by
  constructor
  · exact fun s hs => reachable_nonempty hs
  · intro s roomId userId ps hs hget hdel
    have hnd := reachable_nodup hs
    have h1 := mapGet_mapDelete_self (m := s.roomParticipants) roomId hnd.1
    have h2 := mapGet_mapDelete_self (m := s.roomChatHistory) roomId hnd.2
    constructor <;> simp [removeParticipant, hget, hdel, h1, h2]

/-- Witness for the amended C1, at the reachable state in which exactly
`demoUser` is in room `"r"`. -/
theorem registry_empty_room_invariant_witness :
    participantsNonempty oneUserState ∧
    (mapGet (removeParticipant oneUserState "r" "u1").roomParticipants "r" =
        none ∧
     mapGet (removeParticipant oneUserState "r" "u1").roomChatHistory "r" =
        none) :=
  ⟨registry_empty_room_invariant_amended.1 oneUserState
      (Reachable.step _ Reachable.init),
   registry_empty_room_invariant_amended.2 oneUserState "r" "u1"
      [("u1", mkPresence demoUser)] (Reachable.step _ Reachable.init)
      (by decide) (by decide)⟩

set_option maxRecDepth 40000 in
/-- C2: in every reachable state every room's chat history has length at
most 50, and after 51 sequential chat sends into one room the history
holds exactly the last 50 messages in insertion order, the first message
having been evicted. -/
theorem chat_history_bounded_and_eviction :
    (∀ s : RoomsState, Reachable s →
      ∀ p ∈ s.roomChatHistory, p.2.length ≤ MAX_CHAT_HISTORY) ∧
    mapGet c2FinalState.roomChatHistory "r" =
      some (((List.range 51).drop 1).map c2Message) ∧
    c2Message 0 ∉ ((List.range 51).drop 1).map c2Message := by
  refine ⟨fun s hs => reachable_bounded hs, ?_, ?_⟩
  · decide
  · decide

/-- Witness for C2 at the reachable state reached by the 51 sends. -/
theorem chat_history_bounded_witness :
    ∀ p ∈ c2FinalState.roomChatHistory, p.2.length ≤ MAX_CHAT_HISTORY :=
  chat_history_bounded_and_eviction.1 c2FinalState
    (reachable_foldl c2Events Reachable.init)

/-- C5: a join for a room id absent from the durable store emits exactly
one scoped `session:error` to the requester and leaves the registry, the
presence maps, the chat histories, the session's joined set and its
delivery-group memberships unchanged. -/
theorem join_missing_room_scoped_error (s : RoomsState) (sess : Session)
    (roomId : String) :
    handleJoin s sess roomId false =
      (s, sess, [⟨.sender, .sessionError (some roomId) "Room not found"⟩]) :=
  rfl

/-- C10: every event handler preserves the invariant that each tracked
participants map is non-empty — the join handler creates the map and
inserts the joiner's presence in one step, the removal handlers delete
the map when it becomes empty, and neither the cursor nor the chat
handler creates a participants map. -/
theorem participants_nonempty_preserved :
    (∀ (s : RoomsState) (sess : Session) (roomId : String)
        (roomExists : Bool), participantsNonempty s →
      participantsNonempty (handleJoin s sess roomId roomExists).1) ∧
    (∀ (s : RoomsState) (sess : Session) (roomId : String),
      participantsNonempty s →
      participantsNonempty (handleLeave s sess roomId).1) ∧
    (∀ (s : RoomsState) (sess : Session) (roomId : String) (c : CursorState),
      participantsNonempty s →
      participantsNonempty (handleCursor s sess roomId c).1) ∧
    (∀ (s : RoomsState) (sess : Session)
        (roomId content freshId now : String), participantsNonempty s →
      participantsNonempty (handleChat s sess roomId content freshId now).1) ∧
    (∀ (s : RoomsState) (sess : Session), participantsNonempty s →
      participantsNonempty (handleDisconnect s sess).1) :=
  ⟨fun _ sess roomId ex hs => handleJoin_nonempty sess roomId ex hs,
   fun _ sess roomId hs => handleLeave_nonempty sess roomId hs,
   fun _ sess roomId c hs => handleCursor_nonempty sess roomId c hs,
   fun _ sess roomId content freshId now hs =>
     handleChat_nonempty sess roomId content freshId now hs,
   fun _ sess hs => handleDisconnect_nonempty sess hs⟩

/-- Witness for C10: each preservation statement applied at a concrete
state. -/
theorem participants_nonempty_preserved_witness :
    participantsNonempty (handleJoin emptyRooms demoSession "r" true).1 ∧
    participantsNonempty (handleLeave oneUserState demoSession "r").1 ∧
    participantsNonempty
      (handleCursor oneUserState demoSession "r" ⟨0, 0, none⟩).1 ∧
    participantsNonempty
      (handleChat oneUserState demoSession "r" "yo" "i" "t").1 ∧
    participantsNonempty
      (handleDisconnect oneUserState ⟨demoUser, ["r"], ["r"]⟩).1 := by
  have hempty : participantsNonempty emptyRooms := by
    intro p hp; simp [emptyRooms] at hp
  have hone : participantsNonempty oneUserState := by
    unfold participantsNonempty; decide
  exact ⟨participants_nonempty_preserved.1 emptyRooms demoSession "r" true
      hempty,
    participants_nonempty_preserved.2.1 oneUserState demoSession "r" hone,
    participants_nonempty_preserved.2.2.1 oneUserState demoSession "r"
      ⟨0, 0, none⟩ hone,
    participants_nonempty_preserved.2.2.2.1 oneUserState demoSession "r"
      "yo" "i" "t" hone,
    participants_nonempty_preserved.2.2.2.2 oneUserState
      ⟨demoUser, ["r"], ["r"]⟩ hone⟩

/-- C3 counterexample: on a concrete successful join the reply's
payload carries exactly the fields `roomId`, `participants` and
`chatHistory` — no strokes field is present under either the spec's name
`strokes` or the client type's name `whiteboardStrokes`, so the claim
that the snapshot contains all three of participants, chat history and
strokes is false. -/
theorem join_snapshot_lacks_strokes_field :
    joinEmitsDemo.map (fun e => (emitFields e.payload).map Prod.fst) =
      [["roomId", "participants", "chatHistory"],
       ["roomId", "participant"]] ∧
    ∀ e ∈ joinEmitsDemo,
      "strokes" ∉ (emitFields e.payload).map Prod.fst ∧
      "whiteboardStrokes" ∉ (emitFields e.payload).map Prod.fst :=
  ⟨by decide, by decide⟩

/-- C3 (amended): for every successful join the reply to the joiner is a
`session:joined` snapshot whose payload holds the room's current
participants (including the joiner) and its chat history; its fields are
exactly `roomId`, `participants` and `chatHistory` — the server tracks
no strokes and the snapshot carries no strokes field. -/
theorem join_snapshot_fields_amended (s : RoomsState) (sess : Session)
    (roomId : String) :
    (handleJoin s sess roomId true).2.2 =
      [⟨.sender, .sessionJoined roomId
          (joinSnapshotParticipants s sess roomId) (chatHistoryOf s roomId)⟩,
       ⟨.roomExceptSender roomId,
          .participantJoined roomId (mkPresence sess.user)⟩] ∧
    (emitFields (.sessionJoined roomId (joinSnapshotParticipants s sess roomId)
        (chatHistoryOf s roomId))).map Prod.fst =
      ["roomId", "participants", "chatHistory"] :=
  ⟨handleJoin_emits s sess roomId, rfl⟩

/-- C4 counterexample: with `demoUser` alone in room `"r"`, a connection
of `demoUser2` that never joined `"r"` sends `session:leave` — the claim
says this is a no-op with no broadcast, but a `session:participant:left`
broadcast is emitted to the room; moreover a second connection of the
same `demoUser` (joined set empty) leaving `"r"` even removes the user's
presence and deletes the room's state. -/
theorem leave_not_joined_still_broadcasts :
    ("r" ∉ (⟨demoUser2, [], []⟩ : Session).rooms ∧
      (handleLeave oneUserState ⟨demoUser2, [], []⟩ "r").2.2 =
        [⟨.roomExceptSender "r", .participantLeft "r" "u2"⟩]) ∧
    ("r" ∉ (⟨demoUser, [], []⟩ : Session).rooms ∧
      mapGet (handleLeave oneUserState
          ⟨demoUser, [], []⟩ "r").1.roomParticipants "r" = none ∧
      mapGet oneUserState.roomParticipants "r" ≠ none) :=
  ⟨⟨by decide, by decide⟩, by decide, by decide, by decide⟩

/-- C4 (amended): a leave for a room id not in the connection's joined
set (and not among its delivery groups) whose user has no presence entry
in that room changes neither the registry nor the session and reports no
error, but it still emits one `session:participant:left` broadcast to
the room excluding the sender; a disconnect with an empty joined set
emits nothing and changes nothing. -/
theorem leave_not_joined_amended :
    (∀ (s : RoomsState) (sess : Session) (roomId : String),
      roomId ∉ sess.rooms → roomId ∉ sess.channels →
      (∀ ps, mapGet s.roomParticipants roomId = some ps →
        mapGet ps sess.user.id = none ∧ ps ≠ []) →
      (handleLeave s sess roomId).1 = s ∧
      (handleLeave s sess roomId).2.1 = sess ∧
      (handleLeave s sess roomId).2.2 =
        [⟨.roomExceptSender roomId,
          .participantLeft roomId sess.user.id⟩]) ∧
    (∀ (s : RoomsState) (sess : Session), sess.rooms = [] →
      handleDisconnect s sess = (s, sess, [])) := by
  constructor
  · intro s sess roomId hr hc hps
    have hsess : setDelete (setDelete sess.channels roomId) roomId =
        setDelete sess.channels roomId := by
      rw [setDelete_of_not_mem (by rw [setDelete_of_not_mem hc]; exact hc)]
    have hstate : removeParticipant s roomId sess.user.id = s := by
      unfold removeParticipant
      cases hget : mapGet s.roomParticipants roomId with
      | none => rfl
      | some ps =>
          obtain ⟨hnone, hne⟩ := hps ps hget
          have hdel : mapDelete ps sess.user.id = ps :=
            mapDelete_of_get_none hnone
          have hlen : ¬ (mapDelete ps sess.user.id).length = 0 := by
            rw [hdel]
            simpa using List.length_eq_zero.not.mpr hne
          simp only [hlen, if_neg hlen, hdel, mapSet_of_get_eq hget]
          have hlen' : ¬ ps.length = 0 := by
            simpa using List.length_eq_zero.not.mpr hne
          rw [if_neg hlen']
    refine ⟨?_, ?_, rfl⟩
    · simpa [handleLeave] using hstate
    · simp [handleLeave, setDelete_of_not_mem hr, setDelete_of_not_mem hc]
  · intro s sess hrooms
    obtain ⟨u, rooms, channels⟩ := sess
    simp only at hrooms
    subst hrooms
    rfl

/-- Witness for the amended C4: `demoUser2` (not joined, no presence)
leaves room `"r"` held by `demoUser`, and a fresh session disconnects. -/
theorem leave_not_joined_witness :
    ((handleLeave oneUserState ⟨demoUser2, [], []⟩ "r").1 = oneUserState ∧
     (handleLeave oneUserState ⟨demoUser2, [], []⟩ "r").2.1 =
       ⟨demoUser2, [], []⟩ ∧
     (handleLeave oneUserState ⟨demoUser2, [], []⟩ "r").2.2 =
       [⟨.roomExceptSender "r", .participantLeft "r" "u2"⟩]) ∧
    handleDisconnect emptyRooms demoSession =
      (emptyRooms, demoSession, []) := by
  constructor
  · exact leave_not_joined_amended.1 oneUserState ⟨demoUser2, [], []⟩ "r"
      (by decide) (by decide)
      (by
        intro ps hps
        have he : mapGet oneUserState.roomParticipants "r" =
            some [("u1", mkPresence demoUser)] := by decide
        rw [he] at hps
        injection hps with h
        subst h
        exact ⟨by decide, by decide⟩)
  · exact leave_not_joined_amended.2 emptyRooms demoSession rfl

/-- C6: the auth middleware rejects a handshake carrying neither an auth
token nor an authorization header with "Authentication required", rejects
a verified token whose subject resolves to no user with "User not
found", and on success creates the session with the resolved identity
and an empty joined-room set; in each rejection case `connect` yields no
session, so no room event handler (all of which require a session) is
reachable. -/
theorem auth_middleware_contract (verify : String → Except String String)
    (findUser : String → Option SocketUser) (h : HandshakeAuth)
    (rawToken sub : String) (u : SocketUser) :
    (h.authToken = none → h.authorizationHeader = none →
      authMiddleware verify findUser h = .rejected "Authentication required" ∧
      connect verify findUser h = none) ∧
    (extractRawToken h = some rawToken → rawToken ≠ "" →
      verify rawToken = .ok sub → findUser sub = none →
      authMiddleware verify findUser h = .rejected "User not found" ∧
      connect verify findUser h = none) ∧
    (extractRawToken h = some rawToken → rawToken ≠ "" →
      verify rawToken = .ok sub → findUser sub = some u →
      authMiddleware verify findUser h =
        .accepted { user := u, rooms := [], channels := [] } ∧
      connect verify findUser h =
        some { user := u, rooms := [], channels := [] }) := by
  refine ⟨?_, ?_, ?_⟩
  · intro h1 h2
    have hn : extractRawToken h = none := by
      simp [extractRawToken, h1, h2]
    constructor <;> simp [connect, authMiddleware, hn]
  · intro h1 h2 h3 h4
    constructor <;> simp [connect, authMiddleware, h1, h2, h3, h4]
  · intro h1 h2 h3 h4
    constructor <;> simp [connect, authMiddleware, h1, h2, h3, h4]

/-- Witness for C6: the three middleware outcomes at concrete
verifier/store functions. -/
theorem auth_middleware_witness :
    (authMiddleware demoVerify demoFindUser ⟨none, none⟩ =
        .rejected "Authentication required" ∧
      connect demoVerify demoFindUser ⟨none, none⟩ = none) ∧
    (authMiddleware demoVerifyGhost demoFindUser ⟨some "tok", none⟩ =
        .rejected "User not found" ∧
      connect demoVerifyGhost demoFindUser ⟨some "tok", none⟩ = none) ∧
    (authMiddleware demoVerify demoFindUser ⟨some "tok", none⟩ =
        .accepted { user := demoUser, rooms := [], channels := [] } ∧
      connect demoVerify demoFindUser ⟨some "tok", none⟩ =
        some { user := demoUser, rooms := [], channels := [] }) :=
  ⟨(auth_middleware_contract demoVerify demoFindUser ⟨none, none⟩ "" ""
      demoUser).1 rfl rfl,
   (auth_middleware_contract demoVerifyGhost demoFindUser ⟨some "tok", none⟩
      "tok" "ghost" demoUser).2.1 rfl (by decide) rfl
      (by simp [demoFindUser]),
   (auth_middleware_contract demoVerify demoFindUser ⟨some "tok", none⟩
      "tok" "sub1" demoUser).2.2 rfl (by decide) (by simp [demoVerify])
      (by simp [demoFindUser])⟩

/-- C7: when a user joins a room whose participants map already holds an
entry under their user id (rejoin), the reply is still the snapshot, the
snapshot's participants list carries exactly one entry with the joiner's
user id, and the participants map's size is unchanged (overwrite, not
duplication). -/
theorem rejoin_overwrites_presence (s : RoomsState) (sess : Session)
    (roomId : String) (ps : List (String × ParticipantPresence))
    (hget : mapGet s.roomParticipants roomId = some ps)
    (hnd : (ps.map Prod.fst).Nodup)
    (hid : ∀ p ∈ ps, p.2.userId = p.1)
    (hhas : mapHas ps sess.user.id = true) :
    (handleJoin s sess roomId true).2.2.head? =
      some ⟨.sender, .sessionJoined roomId
        (joinSnapshotParticipants s sess roomId) (chatHistoryOf s roomId)⟩ ∧
    (joinSnapshotParticipants s sess roomId).countP
      (fun q => q.userId == sess.user.id) = 1 ∧
    (joinSnapshotParticipants s sess roomId).length = ps.length := by
  refine ⟨?_, ?_, ?_⟩
  · rw [handleJoin_emits]
    rfl
  · unfold joinSnapshotParticipants
    rw [getParticipants_of_get_some hget]
    exact countP_values_mapSet sess.user.id (mkPresence sess.user) rfl ps
      hnd hid hhas
  · unfold joinSnapshotParticipants
    rw [getParticipants_of_get_some hget, mapValues_length]
    obtain ⟨v, hv⟩ := Option.isSome_iff_exists.mp
      (by simpa [mapHas] using hhas)
    exact mapSet_length _ hv

/-- Witness for C7: `demoUser` rejoins room `"r"` it already occupies. -/
theorem rejoin_overwrites_presence_witness :
    (joinSnapshotParticipants oneUserState demoSession "r").countP
      (fun q => q.userId == "u1") = 1 ∧
    (joinSnapshotParticipants oneUserState demoSession "r").length = 1 := by
  have h := rejoin_overwrites_presence oneUserState demoSession "r"
    [("u1", mkPresence demoUser)] (by decide) (by decide) (by decide)
    (by decide)
  exact ⟨h.2.1, h.2.2⟩

/-- C8: a cursor update for a room with no tracked participants map, or
from a user with no presence entry in that room (in particular a room
the sender never joined), is silently dropped — no state change, no
broadcast, no error; otherwise the sender's presence `cursor` field is
replaced wholesale and exactly one broadcast tagged with the sender's
user id goes to the room excluding the sender. -/
theorem cursor_update_contract (s : RoomsState) (sess : Session)
    (roomId : String) (c : CursorState) :
    (mapGet s.roomParticipants roomId = none →
      handleCursor s sess roomId c = (s, sess, [])) ∧
    (∀ ps, mapGet s.roomParticipants roomId = some ps →
      mapGet ps sess.user.id = none →
      handleCursor s sess roomId c = (s, sess, [])) ∧
    (∀ ps pres, mapGet s.roomParticipants roomId = some ps →
      mapGet ps sess.user.id = some pres →
      handleCursor s sess roomId c =
        ({ s with
            roomParticipants :=
              mapSet s.roomParticipants roomId
                (mapSet ps sess.user.id { pres with cursor := some c }) },
         sess,
         [⟨.roomExceptSender roomId,
           .cursorMoved roomId sess.user.id c⟩])) := by
  refine ⟨?_, ?_, ?_⟩
  · intro h1
    simp [handleCursor, h1]
  · intro ps h1 h2
    simp [handleCursor, h1, h2]
  · intro ps pres h1 h2
    simp [handleCursor, h1, h2]

/-- Witness for C8: the three cursor cases at concrete states. -/
theorem cursor_update_witness :
    handleCursor emptyRooms demoSession "r" ⟨1, 2, none⟩ =
      (emptyRooms, demoSession, []) ∧
    handleCursor oneUserState ⟨demoUser2, [], []⟩ "r" ⟨1, 2, none⟩ =
      (oneUserState, ⟨demoUser2, [], []⟩, []) ∧
    handleCursor oneUserState demoSession "r" ⟨1, 2, none⟩ =
      ({ oneUserState with
          roomParticipants :=
            mapSet oneUserState.roomParticipants "r"
              (mapSet [("u1", mkPresence demoUser)] "u1"
                { mkPresence demoUser with cursor := some ⟨1, 2, none⟩ }) },
       demoSession,
       [⟨.roomExceptSender "r", .cursorMoved "r" "u1" ⟨1, 2, none⟩⟩]) :=
  ⟨(cursor_update_contract emptyRooms demoSession "r" ⟨1, 2, none⟩).1
      (by decide),
   (cursor_update_contract oneUserState ⟨demoUser2, [], []⟩ "r"
      ⟨1, 2, none⟩).2.1 [("u1", mkPresence demoUser)] (by decide) (by decide),
   (cursor_update_contract oneUserState demoSession "r" ⟨1, 2, none⟩).2.2
      [("u1", mkPresence demoUser)] (mkPresence demoUser) (by decide)
      (by decide)⟩

/-- C9: a chat send whose content trims to the empty string is a silent
no-op (no append, no broadcast, no error, state unchanged); otherwise
the handler appends a message carrying the trimmed content, the supplied
fresh id and timestamp to the room's bounded history (evicting the
oldest entry when the capacity of 50 is exceeded) and broadcasts it to
the whole room including the sender. -/
theorem chat_message_contract (s : RoomsState) (sess : Session)
    (roomId content freshId now : String) :
    (jsTrim content = "" →
      handleChat s sess roomId content freshId now = (s, sess, [])) ∧
    (jsTrim content ≠ "" →
      mapGet ((handleChat s sess roomId content freshId now).1).roomChatHistory
          roomId =
        some (if (chatHistoryOf s roomId ++
              [chatMessageOf sess roomId content freshId now]).length >
              MAX_CHAT_HISTORY
          then (chatHistoryOf s roomId ++
              [chatMessageOf sess roomId content freshId now]).tail
          else chatHistoryOf s roomId ++
              [chatMessageOf sess roomId content freshId now]) ∧
      ((handleChat s sess roomId content freshId now).1).roomParticipants =
        s.roomParticipants ∧
      (handleChat s sess roomId content freshId now).2.1 = sess ∧
      (handleChat s sess roomId content freshId now).2.2 =
        [⟨.roomAll roomId,
          .chatBroadcast (chatMessageOf sess roomId content freshId now)⟩]) := by
  constructor
  · intro ht
    simp [handleChat, ht]
  · intro ht
    refine ⟨?_, handleChat_roomParticipants s sess roomId content freshId now,
      ?_, ?_⟩
    · unfold handleChat pushChatMessage getChatHistory chatHistoryOf
        chatMessageOf
      cases hh : mapGet s.roomChatHistory roomId with
      | none => simp [ht, hh, mapGet_mapSet]
      | some hist => simp [ht, hh, mapGet_mapSet]
    · simp [handleChat, ht]
    · simp [handleChat, ht, chatMessageOf]

/-- Witness for C9: a whitespace-only send and a real send. -/
theorem chat_message_witness :
    handleChat emptyRooms demoSession "r" "   " "idA" "tA" =
      (emptyRooms, demoSession, []) ∧
    (handleChat emptyRooms demoSession "r" " hi " "idB" "tB").2.2 =
      [⟨.roomAll "r",
        .chatBroadcast (chatMessageOf demoSession "r" " hi " "idB" "tB")⟩] :=
  ⟨(chat_message_contract emptyRooms demoSession "r" "   " "idA" "tA").1
      (by decide),
   ((chat_message_contract emptyRooms demoSession "r" " hi " "idB" "tB").2
      (by decide)).2.2.2⟩

end Whiteboard
